import Mathlib

/-!
Verification of the re-redash notebook module (`src/notebook.js`).

Strings are modelled as `List Char`.  JavaScript `String.prototype.trim`
removes leading and trailing whitespace; the repository only ever deals in
ASCII whitespace (spaces, tabs, newlines, carriage returns), so `isWS`
covers exactly those characters.  Cell ids are built in JavaScript as the
strings `cell_<timestamp>_<index>` (from `parseQueries`) or
`cell_<timestamp>` (from `addNewCell`); the inductive `CellId` keeps the
same information (the formatting is injective for a fixed timestamp, so
nothing is lost).  DOM manipulation, Ace-editor widget lifecycle and
`setTimeout` focus calls are outside the embedding; the state carries the
pieces the algorithms read and write: the cell list, the per-index live
editor contents, the Ace buffer and the mode flags.
-/

/-- JavaScript whitespace as used by the repository (ASCII subset). -/
def isWS (c : Char) : Bool :=
  c = ' ' || c = '\t' || c = '\n' || c = '\r'

/-- Drop trailing whitespace (the right half of JS `trim`). -/
def dropTrailWS : List Char → List Char
  | [] => []
  | c :: cs =>
    match dropTrailWS cs with
    | [] => if isWS c then [] else [c]
    | r => c :: r

/-- JavaScript `String.prototype.trim`. -/
def trim (s : List Char) : List Char :=
  dropTrailWS (s.dropWhile isWS)

/-- Helper for `splitSep`: prepend a character to the first fragment. -/
def cons1 (c : Char) : List (List Char) → List (List Char)
  | [] => [[c]]
  | h :: t => (c :: h) :: t

/-- JavaScript `String.prototype.split` with a one-character separator. -/
def splitSep (sep : Char) : List Char → List (List Char)
  | [] => [[]]
  | c :: cs =>
    if c = sep then [] :: splitSep sep cs
    else cons1 c (splitSep sep cs)

/-- JavaScript `Array.prototype.join(";\n\n")`: the Joiner's separator. -/
def joinCells : List (List Char) → List Char
  | [] => []
  | [q] => q
  | q :: q2 :: qs => q ++ ';' :: '\n' :: '\n' :: joinCells (q2 :: qs)

/-- Cell ids: `cell_<now>_<index>` from `parseQueries`, `cell_<now>` from
`addNewCell` / `copyCell`. -/
inductive CellId where
  | parsed (now idx : Nat)
  | fresh (now : Nat)
deriving DecidableEq, Repr

/-- A notebook cell: `{ id, content }`. -/
structure Cell where
  id : CellId
  content : List Char
deriving DecidableEq, Repr

/-- The final `.map((query, index) => ({id: ..., content: query}))` of
`parseQueries`, carrying the running index. -/
def attachIds (now : Nat) : Nat → List (List Char) → List Cell
  | _, [] => []
  | i, q :: qs => ⟨CellId.parsed now i, q⟩ :: attachIds now (i + 1) qs

/-- Embedding of `parseQueries` from `src/notebook.js`: guard on blank input, split on
the separator `;`, trim each fragment, drop empty fragments, attach ids.
`now` stands for `Date.now()`. -/
def parseQueries (now : Nat) (content : List Char) : List Cell :=
  if (trim content).isEmpty then []
  else
    attachIds now 0
      (((splitSep ';' content).map trim).filter (fun q => !q.isEmpty))

/-- The mutable module state of `notebook.js`, restricted to the fields the
algorithms under verification read and write.  `cellEditors` maps a cell
index to the live Ace sub-widget's current value when such a widget exists
(`getValue()`), `aceBuffer` is the main editor's buffer
(`aceEditor.getValue()` / `setValue`), `hasAceEditor` is the truthiness of
`notebookState.aceEditor`. -/
structure NotebookState where
  cells : List Cell
  cellEditors : Nat → Option (List Char)
  aceBuffer : List Char
  isNotebookMode : Bool
  hasAceEditor : Bool

/-- One step of the `.map` in `syncCellsToAceEditor`: the resolved content
of the cell at index `i` — the live editor value trimmed when an editor
exists, otherwise the stored content trimmed (`cell.content ?
cell.content.trim() : ""`, and `trim [] = []`). -/
def resolveContent (editors : Nat → Option (List Char)) (i : Nat)
    (cell : Cell) : List Char :=
  match editors i with
  | some v => trim v
  | none => trim cell.content

/-- The `cellContents` array of `syncCellsToAceEditor` (the indexed map). -/
def cellContentsFrom (editors : Nat → Option (List Char)) :
    Nat → List Cell → List (List Char)
  | _, [] => []
  | i, c :: cs => resolveContent editors i c :: cellContentsFrom editors (i + 1) cs

/-- The `fullContent` of `syncCellsToAceEditor`: filter out empty resolved
contents and join with `";\n\n"`. -/
def fullContent (editors : Nat → Option (List Char)) (cells : List Cell) :
    List Char :=
  joinCells ((cellContentsFrom editors 0 cells).filter (fun q => !q.isEmpty))

/-- Embedding of `syncCellsToAceEditor` from `src/notebook.js`: early return unless an
Ace editor is present and notebook mode is on; recompute `fullContent`;
write it to the buffer only when it differs from the current value.  The
boolean reports whether a write (`setValue`) happened. -/
def syncCellsToAceEditor (st : NotebookState) : NotebookState × Bool :=
  if st.hasAceEditor = false ∨ st.isNotebookMode = false then (st, false)
  else
    let full := fullContent st.cellEditors st.cells
    if st.aceBuffer = full then (st, false)
    else ({ st with aceBuffer := full }, true)

/-- The state after a sync, discarding the wrote-flag. -/
def syncState (st : NotebookState) : NotebookState :=
  (syncCellsToAceEditor st).1

/-- The Joiner exactly as the specification words it: resolve each cell
(live editing sub-widget value if one exists, else the stored content),
trim the resolved content, drop cells that are empty after trimming, and
join the survivors in order with the separator plus a blank line.  Written
independently of the code-side `fullContent` to be compared with it. -/
def specJoinContents (editors : Nat → Option (List Char)) :
    Nat → List Cell → List (List Char)
  | _, [] => []
  | i, c :: cs =>
    let raw := match editors i with
      | some v => v
      | none => c.content
    let rest := specJoinContents editors (i + 1) cs
    if (trim raw).isEmpty then rest else trim raw :: rest

/-- The spec-side Joiner output (see `specJoinContents`). -/
def specJoin (editors : Nat → Option (List Char)) (cells : List Cell) :
    List Char :=
  joinCells (specJoinContents editors 0 cells)

/-- JavaScript `Array.prototype.splice(p, 0, x)`: insert `x` at position `p`. -/
def spliceInsert (p : Nat) (x : Cell) (l : List Cell) : List Cell :=
  l.take p ++ x :: l.drop p

/-- Embedding of `addNewCell` from `src/notebook.js`: build a fresh empty cell, splice
it at `position` when that is in bounds, else push it; re-render and sync.
The inner `renderCells` call never synthesizes another cell because the
list just grew, so on the cell list it is the identity; the trailing
focus `setTimeout` is DOM-only. -/
def addNewCell (now : Nat) (position : Option Int) (st : NotebookState) :
    NotebookState :=
  let newCell : Cell := ⟨CellId.fresh now, []⟩
  let cells' :=
    match position with
    | some p =>
      if 0 ≤ p ∧ p < (st.cells.length : Int) then
        spliceInsert p.toNat newCell st.cells
      else st.cells ++ [newCell]
    | none => st.cells ++ [newCell]
  syncState { st with cells := cells' }

/-- Embedding of `renderCells` from `src/notebook.js`, restricted to its effect on the
state (DOM rebuilding aside): when the cell list is empty it calls
`addNewCell()`, which synthesizes exactly one empty cell. -/
def renderCells (now : Nat) (st : NotebookState) : NotebookState :=
  if st.cells.isEmpty then addNewCell now none st else st

/-- Embedding of `copyCell` from `src/notebook.js`: silently return when `index` is out
of bounds; resolve the cell's current content (live editor value first,
stored content as fallback, untrimmed); splice a duplicate with a fresh id
right after the original; re-render and sync.  The focus `setTimeout` is
DOM-only. -/
def copyCell (now : Nat) (index : Int) (st : NotebookState) : NotebookState :=
  if index < 0 ∨ (st.cells.length : Int) ≤ index then st
  else
    let i := index.toNat
    let cellContent :=
      match st.cellEditors i with
      | some v => v
      | none => (st.cells.getD i ⟨CellId.fresh now, []⟩).content
    let copiedCell : Cell := ⟨CellId.fresh now, cellContent⟩
    let st1 := { st with cells := spliceInsert (i + 1) copiedCell st.cells }
    syncState (renderCells now st1)

/-- Embedding of `deleteCell` from `src/notebook.js`: do nothing when `index` is out of
bounds; otherwise destroy and forget the cell's editor instance, compute
the focus target from the pre-deletion length (`-1` encodes none), splice
the cell out, re-render, sync, and report the focus target when it is
non-negative and cells remain. -/
def deleteCell (now : Nat) (index : Int) (st : NotebookState) :
    NotebookState × Option Int :=
  if 0 ≤ index ∧ index < (st.cells.length : Int) then
    let editors' := fun i => if i = index.toNat then none else st.cellEditors i
    let totalCells := st.cells.length
    let focusIndex : Int :=
      if 1 < totalCells then (if 0 < index then index - 1 else 0) else -1
    let st1 := { st with cells := st.cells.eraseIdx index.toNat,
                         cellEditors := editors' }
    let st2 := syncState (renderCells now st1)
    (st2, if 0 ≤ focusIndex ∧ 0 < st2.cells.length then some focusIndex else none)
  else (st, none)

/-- The assignment `cells[index].content = content` on the cell list. -/
def setCellContent : List Cell → Nat → List Char → List Cell
  | [], _, _ => []
  | c :: cs, 0, v => { c with content := v } :: cs
  | c :: cs, n + 1, v => c :: setCellContent cs n v

/-- Embedding of `updateCellContent` from `src/notebook.js`: in-bounds guard, store the
new content, sync back to the Ace editor. -/
def updateCellContent (index : Nat) (content : List Char)
    (st : NotebookState) : NotebookState :=
  if index < st.cells.length then
    syncState { st with cells := setCellContent st.cells index content }
  else st

/-- The single shared debounce timer `notebookState.debounceTimer`: at most
one pending `updateCellContent` call, whatever cell it is for. -/
def DebounceTimer := Option (Nat × List Char)

/-- Embedding of `debouncedUpdateCell` from `src/notebook.js`: `clearTimeout` cancels
whatever update was pending — for any cell — and a timer for the new
`(index, content)` update replaces it. -/
def debouncedUpdateCell (index : Nat) (content : List Char)
    (_t : DebounceTimer) : DebounceTimer :=
  some (index, content)

/-- The timer firing: the pending update, if any, runs. -/
def fireDebounce (t : DebounceTimer) (st : NotebookState) : NotebookState :=
  match t with
  | none => st
  | some (i, c) => updateCellContent i c st

/-- Does a (trimmed) line start with the `--` comment token? -/
def startsWithComment : List Char → Bool
  | '-' :: '-' :: _ => true
  | _ => false

/-- The `allCommented` scan of `toggleSQLComment` over lines `s..e`: every
line in the range is blank or starts (after trimming) with `--`. -/
def allCommented (lines : List (List Char)) (s e : Nat) : Bool :=
  ((lines.drop s).take (e - s + 1)).all
    (fun l => (trim l).isEmpty || startsWithComment (trim l))

/-- The strip branch `line.replace(/^(\s*)--\s?/, "$1")`: keep the leading whitespace, drop
the first `--` and at most one whitespace character after it; a line the
pattern does not match is returned unchanged. -/
def stripComment (line : List Char) : List Char :=
  let ws := line.takeWhile isWS
  let rest := line.dropWhile isWS
  match rest with
  | '-' :: '-' :: r =>
    ws ++ (match r with
      | c :: r2 => if isWS c then r2 else c :: r2
      | [] => [])
  | _ => line

/-- The add branch: `match[1] + "-- " + match[2]` for
`/^(\s*)(.*)/`. -/
def addComment (line : List Char) : List Char :=
  line.takeWhile isWS ++ '-' :: '-' :: ' ' :: line.dropWhile isWS

/-- The per-line body of the toggle loop: blank lines are skipped, others
are stripped or commented according to `allCommented` (`ac`). -/
def toggleOneLine (ac : Bool) (line : List Char) : List Char :=
  if (trim line).isEmpty then line
  else if ac then stripComment line else addComment line

/-- The toggle loop over lines `s..e` (`i` is the running index). -/
def toggleRange (s e : Nat) (ac : Bool) : Nat → List (List Char) → List (List Char)
  | _, [] => []
  | i, l :: ls =>
    (if s ≤ i ∧ i ≤ e then toggleOneLine ac l else l) :: toggleRange s e ac (i + 1) ls

/-- The pure text transformation of `toggleSQLComment` from
`src/notebook.js`, on the line list with the selected line range already
computed (the char-offset-to-line conversion and cursor restoration are
DOM concerns).  For a single-line textarea every selection yields the
range `0..0`. -/
def toggleSQLComment (lines : List (List Char)) (s e : Nat) :
    List (List Char) :=
  toggleRange s e (allCommented lines s e) 0 lines

/-- The function `toggleSQLComment` applied to a single-line text. -/
def toggleLine (line : List Char) : List Char :=
  (toggleSQLComment [line] 0 0).headD []

/-- A cell list holding the given contents (ids irrelevant), as used to
state the Split/Join round trip of the specification. -/
def cellsOf (S : List (List Char)) : List Cell :=
  S.map (fun s => ⟨CellId.fresh 0, s⟩)

/-- A concrete three-cell notebook state, for instantiating theorems. -/
def threeCellState : NotebookState :=
  ⟨[⟨CellId.fresh 0, "a".toList⟩, ⟨CellId.fresh 1, "b".toList⟩,
    ⟨CellId.fresh 2, "c".toList⟩],
   fun _ => none, [], true, true⟩

/-- A concrete one-cell notebook state, for instantiating theorems. -/
def oneCellState : NotebookState :=
  ⟨[⟨CellId.fresh 0, "select 1".toList⟩], fun _ => none, [], true, true⟩

/-- A concrete two-cell notebook state with both cells empty. -/
def twoCellState : NotebookState :=
  ⟨[⟨CellId.fresh 0, []⟩, ⟨CellId.fresh 1, []⟩], fun _ => none, [], true, true⟩

lemma dropTrailWS_eq_nil {l : List Char} :
    dropTrailWS l = [] ↔ ∀ c ∈ l, isWS c = true := by
  induction l with
  | nil => simp [dropTrailWS]
  | cons c cs ih =>
    rw [dropTrailWS]
    cases h : dropTrailWS cs with
    | nil =>
      rw [h] at ih
      have hcs : ∀ x ∈ cs, isWS x = true := ih.mp rfl
      by_cases hc : isWS c = true
      · simp only [hc, if_true, true_iff]
        intro x hx
        rcases List.mem_cons.mp hx with h1 | h1
        · exact h1 ▸ hc
        · exact hcs x h1
      · simp only [Bool.not_eq_true] at hc
        constructor
        · intro hfalse; simp [hc] at hfalse
        · intro hall
          exact absurd (hall c (List.mem_cons_self c cs)) (by simp [hc])
    | cons r rs =>
      constructor
      · intro hfalse; cases hfalse
      · intro hall
        exact absurd (ih.mpr (fun x hx => hall x (List.mem_cons_of_mem c hx)))
          (by simp [h])

lemma dropTrailWS_cons_ne {c : Char} {cs : List Char}
    (h : dropTrailWS cs ≠ []) : dropTrailWS (c :: cs) = c :: dropTrailWS cs := by
  rw [dropTrailWS]
  cases hcs : dropTrailWS cs with
  | nil => exact absurd hcs h
  | cons r rs => rfl

lemma dropTrailWS_cons_shape (c : Char) (cs : List Char) :
    dropTrailWS (c :: cs) = [] ∨ ∃ t, dropTrailWS (c :: cs) = c :: t := by
  rw [dropTrailWS]
  cases dropTrailWS cs with
  | nil =>
    by_cases hc : isWS c = true
    · left; simp [hc]
    · right; exact ⟨[], by simp [hc]⟩
  | cons r rs => right; exact ⟨r :: rs, rfl⟩

lemma dropTrailWS_idem (l : List Char) :
    dropTrailWS (dropTrailWS l) = dropTrailWS l := by
  induction l with
  | nil => rfl
  | cons c cs ih =>
    rw [dropTrailWS]
    cases h : dropTrailWS cs with
    | nil =>
      by_cases hc : isWS c = true <;> simp [dropTrailWS, hc]
    | cons r rs =>
      rw [h] at ih
      have : dropTrailWS (c :: r :: rs) = c :: dropTrailWS (r :: rs) :=
        dropTrailWS_cons_ne (by simp [ih])
      simp only [this, ih]

lemma dropWhile_first {p : Char → Bool} {l : List Char} {c : Char}
    {r : List Char} (h : List.dropWhile p l = c :: r) : p c = false := by
  induction l with
  | nil => cases h
  | cons a as ih =>
    rw [List.dropWhile] at h
    by_cases ha : p a = true
    · rw [ha] at h; exact ih h
    · simp only [Bool.not_eq_true] at ha
      rw [ha] at h
      simp only [cond_false, List.cons.injEq] at h
      rw [← h.1]; exact ha

lemma dropWhile_cons_neg {p : Char → Bool} {c : Char} (l : List Char)
    (h : p c = false) : List.dropWhile p (c :: l) = c :: l := by
  simp [List.dropWhile, h]

lemma dropWhile_ws_append {w : List Char} (l : List Char)
    (hw : ∀ c ∈ w, isWS c = true) :
    List.dropWhile isWS (w ++ l) = List.dropWhile isWS l := by
  induction w with
  | nil => rfl
  | cons a as ih =>
    have ha : isWS a = true := hw a (List.mem_cons_self a as)
    simp only [List.cons_append, List.dropWhile, ha, cond_true]
    exact ih (fun c hc => hw c (List.mem_cons_of_mem a hc))

lemma takeWhile_ws_append {w : List Char} {c : Char} (l : List Char)
    (hw : ∀ x ∈ w, isWS x = true) (hc : isWS c = false) :
    List.takeWhile isWS (w ++ c :: l) = w := by
  induction w with
  | nil => simp [List.takeWhile, hc]
  | cons a as ih =>
    have ha : isWS a = true := hw a (List.mem_cons_self a as)
    have ih2 := ih (fun x hx => hw x (List.mem_cons_of_mem a hx))
    simp only [List.cons_append, List.takeWhile, ha, cond_true]
    exact congrArg (List.cons a) ih2

lemma trim_eq_nil_iff {l : List Char} :
    trim l = [] ↔ ∀ c ∈ l, isWS c = true := by
  unfold trim
  rw [dropTrailWS_eq_nil]
  constructor
  · intro h c hc
    by_cases hcw : isWS c = true
    · exact hcw
    · exfalso
      have : c ∈ List.takeWhile isWS l ++ List.dropWhile isWS l := by
        rw [List.takeWhile_append_dropWhile]; exact hc
      rcases List.mem_append.mp this with h1 | h1
      · exact hcw (List.mem_takeWhile_imp h1)
      · exact hcw (h c h1)
  · intro h c hc
    exact h c (List.dropWhile_sublist (p := isWS) (l := l) |>.mem hc)

lemma trim_cons_eq (c : Char) (l : List Char) (hc : isWS c = false) :
    trim (c :: l) = c :: dropTrailWS l ∨
      (trim (c :: l) = [c] ∧ dropTrailWS l = []) := by
  unfold trim
  rw [dropWhile_cons_neg _ hc, dropTrailWS]
  cases h : dropTrailWS l with
  | nil => right; simp [hc]
  | cons r rs => left; rfl

lemma trim_idem (l : List Char) : trim (trim l) = trim l := by
  unfold trim
  cases h : List.dropWhile isWS l with
  | nil => simp [dropTrailWS, List.dropWhile]
  | cons a as =>
    have ha : isWS a = false := dropWhile_first h
    rcases dropTrailWS_cons_shape a as with h2 | ⟨t, h2⟩
    · rw [h2]; rfl
    · rw [h2, dropWhile_cons_neg _ ha, ← h2, dropTrailWS_idem]

lemma trim_ws_append {w : List Char} (l : List Char)
    (hw : ∀ c ∈ w, isWS c = true) : trim (w ++ l) = trim l := by
  unfold trim
  rw [dropWhile_ws_append l hw]

lemma mem_dropTrailWS {a : Char} :
    ∀ {l : List Char}, a ∈ dropTrailWS l → a ∈ l := by
  intro l
  induction l with
  | nil => exact fun h => h
  | cons c cs ih =>
    intro h
    rw [dropTrailWS] at h
    cases hcs : dropTrailWS cs with
    | nil =>
      rw [hcs] at h
      by_cases hc : isWS c = true
      · simp [hc] at h
      · simp only [Bool.not_eq_true] at hc
        simp only [hc, Bool.false_eq_true, if_false, List.mem_singleton] at h
        exact h ▸ List.mem_cons_self c cs
    | cons r rs =>
      rw [hcs] at h
      rcases List.mem_cons.mp h with h1 | h1
      · exact h1 ▸ List.mem_cons_self c cs
      · exact List.mem_cons_of_mem c (ih (hcs ▸ h1))

lemma mem_trim {a : Char} {l : List Char} (h : a ∈ trim l) : a ∈ l := by
  unfold trim at h
  exact (List.dropWhile_sublist (p := isWS) (l := l)).mem (mem_dropTrailWS h)

lemma splitSep_ne_nil (sep : Char) (l : List Char) : splitSep sep l ≠ [] := by
  cases l with
  | nil => simp [splitSep]
  | cons c cs =>
    rw [splitSep]
    by_cases h : c = sep
    · simp [h]
    · simp only [h, if_false]
      cases splitSep sep cs <;> simp [cons1]

lemma splitSep_no_sep {sep : Char} {l : List Char} (h : sep ∉ l) :
    splitSep sep l = [l] := by
  induction l with
  | nil => rfl
  | cons c cs ih =>
    have hc : c ≠ sep := fun he => h (he ▸ List.mem_cons_self c cs)
    have hcs : sep ∉ cs := fun hm => h (List.mem_cons_of_mem c hm)
    rw [splitSep, if_neg hc, ih hcs]
    rfl

lemma splitSep_append_sep {sep : Char} {xs : List Char} (ys : List Char)
    (h : sep ∉ xs) :
    splitSep sep (xs ++ sep :: ys) = xs :: splitSep sep ys := by
  induction xs with
  | nil => simp [splitSep]
  | cons x xs ih =>
    have hx : x ≠ sep := fun he => h (he ▸ List.mem_cons_self x xs)
    have hxs : sep ∉ xs := fun hm => h (List.mem_cons_of_mem x hm)
    rw [List.cons_append, splitSep, if_neg hx, ih hxs]
    rfl

lemma attachIds_contents (now : Nat) :
    ∀ (i : Nat) (qs : List (List Char)),
      (attachIds now i qs).map Cell.content = qs := by
  intro i qs
  induction qs generalizing i with
  | nil => rfl
  | cons q qs ih => simp [attachIds, ih]

lemma attachIds_ids (now : Nat) :
    ∀ (i : Nat) (qs : List (List Char)),
      (attachIds now i qs).map Cell.id
        = (List.range' i qs.length).map (CellId.parsed now) := by
  intro i qs
  induction qs generalizing i with
  | nil => rfl
  | cons q qs ih => simp [attachIds, List.range', ih]

/-- The blank-input guard of `parseQueries` is redundant: on a
whitespace-only buffer the split-trim-filter pipeline yields `[]` anyway,
so `parseQueries` is the pipeline on every input. -/
lemma parseQueries_eq (now : Nat) (c : List Char) :
    parseQueries now c
      = attachIds now 0
          (((splitSep ';' c).map trim).filter (fun q => !q.isEmpty)) := by
  unfold parseQueries
  split
  · next hblank =>
    have hws : ∀ x ∈ c, isWS x = true := by
      rw [List.isEmpty_iff] at hblank
      exact trim_eq_nil_iff.mp hblank
    have hsep : ';' ∉ c := fun hm => by
      have := hws ';' hm
      simp [isWS] at this
    rw [splitSep_no_sep hsep]
    have : trim c = [] := trim_eq_nil_iff.mpr hws
    simp [this, attachIds]
  · rfl

lemma parseQueries_contents (now : Nat) (c : List Char) :
    (parseQueries now c).map Cell.content
      = ((splitSep ';' c).map trim).filter (fun q => !q.isEmpty) := by
  rw [parseQueries_eq, attachIds_contents]

lemma parseQueries_ids (now : Nat) (c : List Char) :
    (parseQueries now c).map Cell.id
      = (List.range' 0
            ((((splitSep ';' c).map trim).filter (fun q => !q.isEmpty)).length)).map
          (CellId.parsed now) := by
  rw [parseQueries_eq, attachIds_ids]

lemma sync_preserve (st : NotebookState) :
    (syncCellsToAceEditor st).1.cells = st.cells
    ∧ (syncCellsToAceEditor st).1.cellEditors = st.cellEditors
    ∧ (syncCellsToAceEditor st).1.isNotebookMode = st.isNotebookMode
    ∧ (syncCellsToAceEditor st).1.hasAceEditor = st.hasAceEditor := by
  unfold syncCellsToAceEditor
  split
  · exact ⟨rfl, rfl, rfl, rfl⟩
  · dsimp only
    split
    · exact ⟨rfl, rfl, rfl, rfl⟩
    · exact ⟨rfl, rfl, rfl, rfl⟩

lemma syncState_cells (st : NotebookState) : (syncState st).cells = st.cells :=
  (sync_preserve st).1

lemma sync_buffer (st : NotebookState) (h1 : st.hasAceEditor = true)
    (h2 : st.isNotebookMode = true) :
    (syncCellsToAceEditor st).1.aceBuffer
      = fullContent st.cellEditors st.cells := by
  unfold syncCellsToAceEditor
  rw [if_neg (by simp [h1, h2])]
  dsimp only
  split
  · next heq => exact heq
  · rfl

/-- The survivors of the code-side filter are exactly the spec-side
resolved contents: both keep, in order, the trimmed resolved contents of
the cells that are non-blank after trimming. -/
lemma cellContents_filter_eq_spec (editors : Nat → Option (List Char)) :
    ∀ (i : Nat) (cs : List Cell),
      (cellContentsFrom editors i cs).filter (fun q => !q.isEmpty)
        = specJoinContents editors i cs := by
  intro i cs
  induction cs generalizing i with
  | nil => rfl
  | cons c cs ih =>
    rw [cellContentsFrom, specJoinContents, List.filter]
    cases he : editors i with
    | some v =>
      simp only [resolveContent, he]
      by_cases hv : (trim v).isEmpty = true
      · simp [hv, ih]
      · simp only [Bool.not_eq_true] at hv
        simp [hv, ih]
    | none =>
      simp only [resolveContent, he]
      by_cases hv : (trim c.content).isEmpty = true
      · simp [hv, ih]
      · simp only [Bool.not_eq_true] at hv
        simp [hv, ih]

/-- The Joiner's buffer computation coincides with what the specification
describes. -/
lemma fullContent_eq_specJoin (editors : Nat → Option (List Char))
    (cells : List Cell) : fullContent editors cells = specJoin editors cells := by
  unfold fullContent specJoin
  rw [cellContents_filter_eq_spec]

lemma dropTrailWS_eq_cons {l : List Char} {c : Char} {t : List Char}
    (h : dropTrailWS l = c :: t) : ∃ as, l = c :: as := by
  cases l with
  | nil => cases h
  | cons a as =>
    refine ⟨as, ?_⟩
    rw [dropTrailWS] at h
    cases hcs : dropTrailWS as with
    | nil =>
      rw [hcs] at h
      by_cases ha : isWS a = true
      · simp [ha] at h
      · simp only [Bool.not_eq_true] at ha
        simp only [ha, Bool.false_eq_true, if_false, List.cons.injEq] at h
        rw [h.1]
    | cons r rs =>
      rw [hcs] at h
      have h' : a :: r :: rs = c :: t := h
      injection h' with h1 _
      rw [h1]

lemma trim_first_not_ws {l : List Char} {c : Char} {t : List Char}
    (h : trim l = c :: t) : isWS c = false := by
  unfold trim at h
  obtain ⟨as, has⟩ := dropTrailWS_eq_cons h
  exact dropWhile_first has

/-- Splitting the joined buffer recovers exactly the list of fragments,
provided every fragment is non-empty, trimmed and separator-free. -/
lemma split_join_round (T : List (List Char))
    (hT : ∀ t ∈ T, t ≠ [] ∧ ';' ∉ t ∧ trim t = t) :
    ((splitSep ';' (joinCells T)).map trim).filter (fun q => !q.isEmpty)
      = T := by
  induction T with
  | nil => rfl
  | cons t ts ih =>
    obtain ⟨htne, htsep, httrim⟩ := hT t (List.mem_cons_self t ts)
    cases ts with
    | nil =>
      show ((splitSep ';' (joinCells [t])).map trim).filter _ = [t]
      rw [show joinCells [t] = t from rfl, splitSep_no_sep htsep]
      simp [httrim, htne]
    | cons t2 ts2 =>
      have hJ : joinCells (t :: t2 :: ts2)
          = t ++ ';' :: '\n' :: '\n' :: joinCells (t2 :: ts2) := rfl
      rw [hJ, splitSep_append_sep _ htsep]
      have hnl : ('\n' : Char) ≠ ';' := by decide
      rw [show splitSep ';' ('\n' :: '\n' :: joinCells (t2 :: ts2))
            = cons1 '\n' (cons1 '\n' (splitSep ';' (joinCells (t2 :: ts2)))) by
          rw [splitSep, if_neg hnl, splitSep, if_neg hnl]]
      cases hs : splitSep ';' (joinCells (t2 :: ts2)) with
      | nil => exact absurd hs (splitSep_ne_nil ';' _)
      | cons h tl =>
        have ih2 := ih (fun x hx => hT x (List.mem_cons_of_mem t hx))
        rw [hs] at ih2
        rw [show cons1 '\n' (cons1 '\n' (h :: tl))
              = ('\n' :: '\n' :: h) :: tl from rfl]
        have htrim2 : trim ('\n' :: '\n' :: h) = trim h :=
          trim_ws_append (w := ['\n', '\n']) h (by decide)
        have hmap : (t :: ('\n' :: '\n' :: h) :: tl).map trim
            = t :: trim h :: List.map trim tl := by
          rw [List.map_cons, List.map_cons, httrim, htrim2]
        rw [hmap]
        have ht' : (!t.isEmpty) = true := by simp [List.isEmpty_iff, htne]
        rw [List.filter_cons, if_pos ht', List.cons.injEq]
        refine ⟨rfl, ?_⟩
        rw [← List.map_cons]
        exact ih2

lemma cellContentsFrom_none :
    ∀ (i : Nat) (cs : List Cell),
      cellContentsFrom (fun _ => none) i cs
        = cs.map (fun c => trim c.content) := by
  intro i cs
  induction cs generalizing i with
  | nil => rfl
  | cons c cs ih => simp [cellContentsFrom, resolveContent, ih]

lemma map_trim_self {T : List (List Char)} (h : ∀ t ∈ T, trim t = t) :
    T.map trim = T := by
  induction T with
  | nil => rfl
  | cons t ts ih =>
    rw [List.map_cons, h t (List.mem_cons_self t ts),
      ih (fun x hx => h x (List.mem_cons_of_mem t hx))]

lemma filter_nonempty_self {T : List (List Char)} (h : ∀ t ∈ T, t ≠ []) :
    T.filter (fun q => !q.isEmpty) = T := by
  induction T with
  | nil => rfl
  | cons t ts ih =>
    rw [List.filter_cons,
      if_pos (by simp [List.isEmpty_iff, h t (List.mem_cons_self t ts)]),
      ih (fun x hx => h x (List.mem_cons_of_mem t hx))]

lemma fullContent_cellsOf (S : List (List Char)) :
    fullContent (fun _ => none) (cellsOf S)
      = joinCells ((S.map trim).filter (fun q => !q.isEmpty)) := by
  unfold fullContent cellsOf
  rw [cellContentsFrom_none, List.map_map]
  rfl

lemma parsed_inj (now : Nat) : Function.Injective (CellId.parsed now) := by
  intro a b h
  injection h

/-- Claim C1: for every buffer, `parseQueries` returns exactly the
fragments of the buffer split on the separator, each trimmed, with the
fragments that are empty after trimming dropped, and each surviving
fragment carrying a fresh id (`cell_<now>_<index>`) in left-to-right
order (the ids are the indices `0, 1, ...` in order and are pairwise
distinct); in particular the buffer `"select 1;\n\nselect 2;\n\n  "`
yields exactly the two cells `"select 1"` and `"select 2"` in that
order. -/
theorem C1_parseQueries_split_trim_filter (now : Nat) (content : List Char) :
    ((parseQueries now content).map Cell.content
        = ((splitSep ';' content).map trim).filter (fun q => !q.isEmpty))
    ∧ ((parseQueries now content).map Cell.id
        = (List.range' 0
              ((((splitSep ';' content).map trim).filter
                  (fun q => !q.isEmpty)).length)).map (CellId.parsed now))
    ∧ ((parseQueries now content).map Cell.id).Nodup
    ∧ parseQueries now ("select 1;\n\nselect 2;\n\n  ".toList)
        = [⟨CellId.parsed now 0, "select 1".toList⟩,
           ⟨CellId.parsed now 1, "select 2".toList⟩] := by
  refine ⟨parseQueries_contents now content, parseQueries_ids now content,
    ?_, ?_⟩
  · rw [parseQueries_ids]
    exact (List.nodup_range' ..).map (parsed_inj now)
  · rw [parseQueries_eq]
    have hpipe :
        ((splitSep ';' ("select 1;\n\nselect 2;\n\n  ".toList)).map trim).filter
            (fun q => !q.isEmpty)
          = ["select 1".toList, "select 2".toList] := by decide
    rw [hpipe]
    rfl

/-- Claim C5 counterexample: the buffer `"select 1"` contains no separator
yet `parseQueries` yields one cell, not zero. -/
theorem C5_counterexample :
    (';' ∉ "select 1".toList)
    ∧ parseQueries 0 ("select 1".toList) ≠ [] := by decide

/-- Claim C5 amended: a buffer that is empty or contains only whitespace
yields zero cells; a buffer with no separator but some non-whitespace
content yields exactly one cell, holding the trimmed buffer. -/
theorem C5_amended_blank_or_no_sep (now : Nat) (c : List Char) :
    (trim c = [] → parseQueries now c = [])
    ∧ (';' ∉ c → trim c ≠ [] →
        parseQueries now c = [⟨CellId.parsed now 0, trim c⟩]) := by
  constructor
  · intro h
    unfold parseQueries
    rw [if_pos (by simp [h])]
  · intro hsep hne
    rw [parseQueries_eq, splitSep_no_sep hsep]
    rw [List.map_cons, List.map_nil, List.filter_cons,
      if_pos (by simp [List.isEmpty_iff, hne])]
    rfl

/-- Claim C5 amended, witness: blank buffer `" "` yields zero cells;
separator-free buffer `"select 1"` yields exactly one cell. -/
theorem C5_amended_witness :
    parseQueries 0 (" ".toList) = []
    ∧ parseQueries 0 ("select 1".toList)
        = [⟨CellId.parsed 0 0, trim ("select 1".toList)⟩] :=
  ⟨(C5_amended_blank_or_no_sep 0 (" ".toList)).1 (by decide),
   (C5_amended_blank_or_no_sep 0 ("select 1".toList)).2 (by decide) (by decide)⟩

/-- Claim C3: for a sequence `S` of non-empty, separator-free strings,
splitting the joined buffer recovers exactly the non-empty trimmed
contents of `S` in order, and joining them again reproduces the buffer:
`Join (Split (Join S)) = Join S`.  `Join` is the Joiner's buffer
computation (`fullContent` with no live editors), `Split` is
`parseQueries`. -/
theorem C3_split_join_inverse (S : List (List Char)) (now : Nat)
    (hne : ∀ s ∈ S, s ≠ []) (hsep : ∀ s ∈ S, ';' ∉ s) :
    ((parseQueries now (fullContent (fun _ => none) (cellsOf S))).map
          Cell.content
        = (S.map trim).filter (fun q => !q.isEmpty))
    ∧ fullContent (fun _ => none)
          (cellsOf ((parseQueries now
              (fullContent (fun _ => none) (cellsOf S))).map Cell.content))
        = fullContent (fun _ => none) (cellsOf S) := by
  have hT : ∀ t ∈ (S.map trim).filter (fun q => !q.isEmpty),
      t ≠ [] ∧ ';' ∉ t ∧ trim t = t := by
    intro t ht
    have hmem := List.mem_of_mem_filter ht
    have hkeep := List.of_mem_filter ht
    obtain ⟨s, hs, hts⟩ := List.mem_map.mp hmem
    refine ⟨by simpa [List.isEmpty_iff] using hkeep, ?_, ?_⟩
    · intro habs
      exact hsep s hs (mem_trim (hts ▸ habs))
    · rw [← hts, trim_idem]
  have hcontents :
      (parseQueries now (fullContent (fun _ => none) (cellsOf S))).map
          Cell.content
        = (S.map trim).filter (fun q => !q.isEmpty) := by
    rw [parseQueries_contents, fullContent_cellsOf]
    exact split_join_round _ hT
  refine ⟨hcontents, ?_⟩
  rw [hcontents, fullContent_cellsOf, fullContent_cellsOf]
  rw [map_trim_self (fun t ht => (hT t ht).2.2),
    filter_nonempty_self (fun t ht => (hT t ht).1)]

/-- Claim C3 witness: a concrete two-cell sequence round-trips. -/
theorem C3_witness :
    ((parseQueries 5 (fullContent (fun _ => none)
          (cellsOf ["select 1".toList, "select 2".toList]))).map Cell.content
        = ["select 1".toList, "select 2".toList])
    ∧ fullContent (fun _ => none)
          (cellsOf ((parseQueries 5 (fullContent (fun _ => none)
              (cellsOf ["select 1".toList, "select 2".toList]))).map
            Cell.content))
        = fullContent (fun _ => none)
            (cellsOf ["select 1".toList, "select 2".toList]) := by
  have h := C3_split_join_inverse ["select 1".toList, "select 2".toList] 5
    (by decide) (by decide)
  exact ⟨by rw [h.1]; decide, h.2⟩

lemma sync_no_write (st : NotebookState)
    (heq : st.aceBuffer = fullContent st.cellEditors st.cells) :
    syncCellsToAceEditor st = (st, false) := by
  unfold syncCellsToAceEditor
  split
  · rfl
  · dsimp only
    rw [if_pos heq]

/-- Claim C2: when an Ace editor is present and notebook mode is on, the
Joiner leaves the buffer holding exactly what the specification
describes: each cell resolved from its live editing sub-widget when one
exists and from its stored content otherwise, trimmed, with
blank-after-trimming cells dropped, and the survivors joined in their
original order by `";\n\n"` (`specJoin` is that description, written
from the specification's words). -/
theorem C2_joiner_writes_spec_join (st : NotebookState)
    (h1 : st.hasAceEditor = true) (h2 : st.isNotebookMode = true) :
    (syncCellsToAceEditor st).1.aceBuffer
      = specJoin st.cellEditors st.cells := by
  rw [sync_buffer st h1 h2, fullContent_eq_specJoin]

/-- Claim C2 witness: blank and whitespace-only cells interleaved with
non-blank ones join to only the non-blank contents, in order; the live
sub-widget value of cell 1 is preferred over its stored content. -/
theorem C2_joiner_witness :
    (syncCellsToAceEditor
        ⟨[⟨CellId.fresh 0, "   ".toList⟩,
          ⟨CellId.fresh 1, "ignored".toList⟩,
          ⟨CellId.fresh 2, []⟩,
          ⟨CellId.fresh 3, "select 2".toList⟩,
          ⟨CellId.fresh 4, " \n".toList⟩],
         fun i => if i = 1 then some (" select 1 ".toList) else none,
         [], true, true⟩).1.aceBuffer
      = "select 1;\n\nselect 2".toList := by
  rw [C2_joiner_writes_spec_join _ rfl rfl]
  decide

/-- Claim C4: running the Joiner twice in a row with no intervening cell
edits leaves the same buffer value both times, and the second call
performs no write. -/
theorem C4_sync_idempotent (st : NotebookState) :
    (syncCellsToAceEditor (syncCellsToAceEditor st).1).1.aceBuffer
        = (syncCellsToAceEditor st).1.aceBuffer
    ∧ (syncCellsToAceEditor (syncCellsToAceEditor st).1).2 = false := by
  by_cases hG : st.hasAceEditor = false ∨ st.isNotebookMode = false
  · have e1 : syncCellsToAceEditor st = (st, false) := by
      unfold syncCellsToAceEditor
      rw [if_pos hG]
    have h1 : (syncCellsToAceEditor st).1 = st := by rw [e1]
    rw [h1, e1]
    exact ⟨rfl, rfl⟩
  · push_neg at hG
    have h1 : st.hasAceEditor = true := by
      simpa using hG.1
    have h2 : st.isNotebookMode = true := by
      simpa using hG.2
    obtain ⟨p1, p2, _, _⟩ := sync_preserve st
    have hb := sync_buffer st h1 h2
    have heq : (syncCellsToAceEditor st).1.aceBuffer
        = fullContent (syncCellsToAceEditor st).1.cellEditors
            (syncCellsToAceEditor st).1.cells := by
      rw [p1, p2, hb]
    have e2 := sync_no_write (syncCellsToAceEditor st).1 heq
    rw [e2]
    exact ⟨rfl, rfl⟩

lemma addNewCell_none_cells (now : Nat) (st : NotebookState) :
    (addNewCell now none st).cells = st.cells ++ [⟨CellId.fresh now, []⟩] := by
  unfold addNewCell
  dsimp only
  rw [syncState_cells]

lemma renderCells_cells (now : Nat) (st : NotebookState) :
    (renderCells now st).cells
      = if st.cells.isEmpty then st.cells ++ [⟨CellId.fresh now, []⟩]
        else st.cells := by
  unfold renderCells
  split
  · rw [addNewCell_none_cells]
  · rfl

lemma renderCells_cells_ne_nil (now : Nat) (st : NotebookState) :
    (renderCells now st).cells ≠ [] := by
  rw [renderCells_cells]
  split
  · simp
  · next h => simpa [List.isEmpty_iff] using h

lemma sync_render_len_pos (now : Nat) (st : NotebookState) :
    0 < (syncState (renderCells now st)).cells.length := by
  rw [syncState_cells]
  exact List.length_pos.mpr (renderCells_cells_ne_nil now st)

/-- The focus target of an in-bounds delete, in closed form. -/
lemma deleteCell_snd (now : Nat) (st : NotebookState) (i : Int)
    (h0 : 0 ≤ i) (h1 : i < (st.cells.length : Int)) :
    (deleteCell now i st).2
      = if 1 < st.cells.length then some (if 0 < i then i - 1 else 0)
        else none := by
  unfold deleteCell
  rw [if_pos (And.intro h0 h1)]
  dsimp only
  by_cases hn : 1 < st.cells.length
  · simp only [if_pos hn]
    rw [if_pos (And.intro (by split <;> omega) (sync_render_len_pos now _))]
  · simp only [if_neg hn]
    rw [if_neg (by intro hc; exact absurd hc.1 (by norm_num))]

/-- Claim C6: deleting an in-bounds cell of a sequence of length `n > 1`
selects focus target `i - 1` when `i > 0` and the new index `0` when
`i = 0`; when `n = 1` no focus target is selected. -/
theorem C6_delete_focus_rule (now : Nat) (st : NotebookState) (i : Int)
    (h0 : 0 ≤ i) (h1 : i < (st.cells.length : Int)) :
    (1 < st.cells.length →
      (deleteCell now i st).2 = some (if 0 < i then i - 1 else 0))
    ∧ (st.cells.length = 1 → (deleteCell now i st).2 = none) := by
  constructor
  · intro hn
    rw [deleteCell_snd now st i h0 h1, if_pos hn]
  · intro hn
    rw [deleteCell_snd now st i h0 h1, if_neg (by omega)]

/-- Claim C6 witness: in a 3-cell sequence, deleting index 0 focuses the
new index 0 and deleting index 2 focuses index 1; deleting the sole cell
of a 1-cell sequence selects no focus target. -/
theorem C6_delete_focus_witness :
    (deleteCell 9 0 threeCellState).2 = some 0
    ∧ (deleteCell 9 2 threeCellState).2 = some 1
    ∧ (deleteCell 9 0 oneCellState).2 = none := by
  refine ⟨?_, ?_, ?_⟩
  · rw [(C6_delete_focus_rule 9 threeCellState 0 (by decide)
      (by norm_num [threeCellState])).1 (by norm_num [threeCellState])]
    norm_num
  · rw [(C6_delete_focus_rule 9 threeCellState 2 (by decide)
      (by norm_num [threeCellState])).1 (by norm_num [threeCellState])]
    norm_num
  · exact (C6_delete_focus_rule 9 oneCellState 0 (by decide)
      (by norm_num [oneCellState])).2 (by norm_num [oneCellState])

/-- Claim C7: for an out-of-bounds index (negative or at least the length
of the cell sequence), both `copyCell` and `deleteCell` return without
changing anything: the whole state (cells and buffer included) is
untouched and delete reports no focus target. -/
theorem C7_out_of_bounds_noop (now : Nat) (st : NotebookState) (i : Int)
    (h : i < 0 ∨ (st.cells.length : Int) ≤ i) :
    copyCell now i st = st ∧ deleteCell now i st = (st, none) := by
  constructor
  · unfold copyCell
    rw [if_pos h]
  · unfold deleteCell
    rw [if_neg (by rcases h with h | h <;> (rintro ⟨a, b⟩; omega))]

/-- Claim C7 witness: on a concrete one-cell state, index `-1` and index
`5` leave both operations as no-ops. -/
theorem C7_out_of_bounds_witness :
    (copyCell 4 (-1) oneCellState = oneCellState
      ∧ deleteCell 4 (-1) oneCellState = (oneCellState, none))
    ∧ (copyCell 4 5 oneCellState = oneCellState
      ∧ deleteCell 4 5 oneCellState = (oneCellState, none)) :=
  ⟨C7_out_of_bounds_noop 4 oneCellState (-1) (Or.inl (by norm_num)),
   C7_out_of_bounds_noop 4 oneCellState 5
     (Or.inr (by norm_num [oneCellState]))⟩

/-- Claim C10: a render pass always leaves a non-empty cell sequence
(`renderCells` synthesizes exactly one empty cell when the sequence is
empty), and deleting the sole remaining cell leaves a sequence of length
one whose single cell has empty content. -/
theorem C10_never_empty_after_render (now : Nat) (st : NotebookState) :
    (renderCells now st).cells ≠ []
    ∧ (st.cells.length = 1 →
        (deleteCell now 0 st).1.cells.map Cell.content = [[]]
        ∧ (deleteCell now 0 st).1.cells.length = 1) := by
  refine ⟨renderCells_cells_ne_nil now st, ?_⟩
  intro hlen
  obtain ⟨c, hc⟩ := List.length_eq_one.mp hlen
  have hcells : (deleteCell now 0 st).1.cells = [⟨CellId.fresh now, []⟩] := by
    unfold deleteCell
    rw [if_pos (And.intro (le_refl 0) (by rw [hlen]; norm_num))]
    dsimp only
    rw [syncState_cells, renderCells_cells]
    rw [if_pos (by simp [hc])]
    simp [hc]
  rw [hcells]
  exact ⟨rfl, rfl⟩

/-- Claim C10 witness: deleting the only cell of a concrete one-cell
state leaves one cell with empty content, and a render pass on that state
keeps the sequence non-empty. -/
theorem C10_never_empty_witness :
    (renderCells 3 oneCellState).cells ≠ []
    ∧ ((deleteCell 3 0 oneCellState).1.cells.map Cell.content = [[]]
        ∧ (deleteCell 3 0 oneCellState).1.cells.length = 1) :=
  ⟨(C10_never_empty_after_render 3 oneCellState).1,
   (C10_never_empty_after_render 3 oneCellState).2 rfl⟩

lemma toggleLine_eq (line : List Char) :
    toggleLine line
      = toggleOneLine ((trim line).isEmpty || startsWithComment (trim line))
          line := by
  have e : toggleLine line
      = toggleOneLine
          (((trim line).isEmpty || startsWithComment (trim line)) && true)
          line := rfl
  rw [e, Bool.and_true]

lemma stripComment_of_added (w r : List Char)
    (hww : ∀ c ∈ w, isWS c = true) :
    stripComment (w ++ '-' :: '-' :: ' ' :: r) = w ++ r := by
  unfold stripComment
  dsimp only
  rw [takeWhile_ws_append _ hww (by decide), dropWhile_ws_append _ hww,
    dropWhile_cons_neg _ (by decide)]
  rfl

/-- Claim C8 counterexample: the debounce timer is shared, not per-cell.
After an edit of cell 0 (`"select 1"`) and then an edit of cell 1
(`"select 2"`), only cell 1's update is pending — and firing the timer on
a two-cell notebook leaves cell 0's content empty: its pending edit was
discarded by the edit arriving on the other cell. -/
theorem C8_counterexample :
    debouncedUpdateCell 1 ("select 2".toList)
        (debouncedUpdateCell 0 ("select 1".toList) none)
      = some (1, "select 2".toList)
    ∧ (fireDebounce
          (debouncedUpdateCell 1 ("select 2".toList)
            (debouncedUpdateCell 0 ("select 1".toList) none))
          twoCellState).cells.map Cell.content
        = [[], "select 2".toList] :=
  ⟨rfl, rfl⟩

/-- Claim C8 amended: there is a single pending-sync debounce timer shared
by all cells; a new edit on any cell resets it, so within one debounce
window only the very last edit — whatever cell it is for — remains
pending, and firing the timer runs exactly that edit's content update.
Earlier pending edits, including those of other cells, are discarded. -/
theorem C8_shared_debounce_timer (t : DebounceTimer)
    (es : List (Nat × List Char)) (e : Nat × List Char)
    (st : NotebookState) :
    (List.foldl (fun acc p => debouncedUpdateCell p.1 p.2 acc) t (es ++ [e])
        = some e)
    ∧ fireDebounce (some e) st = updateCellContent e.1 e.2 st := by
  constructor
  · induction es generalizing t with
    | nil => rfl
    | cons a as ih => exact ih _
  · cases e
    rfl

/-- Claim C9 counterexample: a line already starting with the token but
without a following space does not round-trip: toggling `"--x"` twice
yields `"-- x"`, not the original text. -/
theorem C9_counterexample :
    toggleLine (toggleLine ("--x".toList)) ≠ "--x".toList
    ∧ toggleLine (toggleLine ("--x".toList)) = "-- x".toList := by
  constructor
  · intro h
    cases h
  · rfl

/-- Claim C9 amended: for a single-line text that does not start (after
leading whitespace) with the `--` token, applying the comment toggle
twice restores the original characters exactly (it gains the token and
then loses it; blank lines are left untouched both times).  A line
already starting with the token loses `--` plus at most one following
space and then regains `"-- "`, which restores the original only when
that is what was removed. -/
theorem C9_toggle_round_trip (line : List Char)
    (h : startsWithComment (trim line) = false) :
    toggleLine (toggleLine line) = line := by
  by_cases hb : (trim line).isEmpty = true
  · have e : toggleLine line = line := by
      rw [toggleLine_eq]
      unfold toggleOneLine
      rw [if_pos hb]
    rw [e, e]
  · have hb' : (trim line).isEmpty = false := by
      rwa [Bool.not_eq_true] at hb
    have e1 : toggleLine line = addComment line := by
      rw [toggleLine_eq, hb', h]
      unfold toggleOneLine
      rw [if_neg (by simp [hb']), if_neg (by simp)]
    have hw : ∀ c ∈ line.takeWhile isWS, isWS c = true :=
      fun c hc => List.mem_takeWhile_imp hc
    have hr : line.dropWhile isWS ≠ [] := by
      intro habs
      apply hb
      show (trim line).isEmpty = true
      unfold trim
      rw [habs]
      rfl
    obtain ⟨a, r', hd⟩ := List.exists_cons_of_ne_nil hr
    have ha : isWS a = false := dropWhile_first hd
    have h1 : dropTrailWS (' ' :: line.dropWhile isWS) ≠ [] := by
      rw [Ne, dropTrailWS_eq_nil]
      intro hall
      have hmem : a ∈ ' ' :: line.dropWhile isWS :=
        List.mem_cons_of_mem ' ' (hd ▸ List.mem_cons_self a r')
      exact absurd (hall a hmem) (by simp [ha])
    have h2 : dropTrailWS ('-' :: ' ' :: line.dropWhile isWS) ≠ [] := by
      rw [Ne, dropTrailWS_eq_nil]
      intro hall
      exact absurd (hall '-' (List.mem_cons_self ..)) (by decide)
    have htrim : trim (addComment line)
        = '-' :: '-' :: dropTrailWS (' ' :: line.dropWhile isWS) := by
      unfold addComment
      rw [trim_ws_append _ hw]
      unfold trim
      rw [dropWhile_cons_neg _ (by decide : isWS '-' = false)]
      rw [dropTrailWS_cons_ne h2, dropTrailWS_cons_ne h1]
    have hcond1 : (trim (addComment line)).isEmpty = false := by
      rw [htrim]
      rfl
    have hcond2 : startsWithComment (trim (addComment line)) = true := by
      rw [htrim]
      rfl
    have e2 : toggleLine (addComment line) = stripComment (addComment line) := by
      rw [toggleLine_eq]
      unfold toggleOneLine
      rw [hcond1, hcond2]
      rw [if_neg (by simp), if_pos (by simp)]
    have e3 : stripComment (addComment line) = line := by
      have : stripComment (addComment line)
          = stripComment (line.takeWhile isWS
              ++ '-' :: '-' :: ' ' :: line.dropWhile isWS) := rfl
      rw [this, stripComment_of_added _ _ hw,
        List.takeWhile_append_dropWhile]
    rw [e1, e2, e3]

/-- Claim C9 amended, witness: the uncommented line `"  select 1"`
round-trips exactly, as does a blank line. -/
theorem C9_toggle_round_trip_witness :
    toggleLine (toggleLine ("  select 1".toList)) = "  select 1".toList
    ∧ toggleLine (toggleLine ("   ".toList)) = "   ".toList :=
  ⟨C9_toggle_round_trip ("  select 1".toList) (by decide),
   C9_toggle_round_trip ("   ".toList) (by decide)⟩

-- Basic sanity checks of the embedding on concrete inputs.
example : toggleLine "select 1".toList = "-- select 1".toList := by decide
example : toggleLine "  -- select 1".toList = "  select 1".toList := by decide
example : toggleLine (toggleLine "--x".toList) = "-- x".toList := by decide
example : fullContent (fun _ => none)
    [⟨CellId.fresh 0, "  ".toList⟩, ⟨CellId.fresh 1, "select 1".toList⟩,
     ⟨CellId.fresh 2, "".toList⟩, ⟨CellId.fresh 3, " select 2\n".toList⟩]
    = "select 1;\n\nselect 2".toList := by decide
example : trim "  a b\n".toList = "a b".toList := by decide
example : splitSep ';' "a;b".toList = ["a".toList, "b".toList] := by decide
example : splitSep ';' ";".toList = [[], []] := by decide
example : splitSep ';' "".toList = [[]] := by decide
example :
    (parseQueries 7 "select 1;\n\nselect 2;\n\n  ".toList).map Cell.content
      = ["select 1".toList, "select 2".toList] := by decide
example : parseQueries 7 "   \n ".toList = [] := by decide
example : (parseQueries 7 "select 1".toList).length = 1 := by decide
